import Mathlib

/-!
Verification development for the rfc2544-master packet benchmark engine.

The definitions below are shallow embeddings of the C sources:
  * `src/src/dataplane/common/packet.c`   — packet codec, sequence tracker,
    latency statistics,
  * `src/src/dataplane/common/core.c`     — trial executor and the binary
    search throughput driver,
  * `src/src/dataplane/linux_xdp/xdp_platform.c` — the UMEM frame allocator,
  * the Mathis-formula helper exercised by `src/tests/c/test_rfc6349.c`.

Machine integers are modelled as `Nat` with explicit `% 2^w` at the points
where C unsigned wrap-around matters (`size_t`/`uint64_t` subtraction,
`uint32_t` subtraction, the `uint64_t` running sum of latency samples).
Byte buffers are modelled as a length together with a byte function
`Nat → Nat`; the C code under study runs on a little-endian host, so a
`uint32_t`/`uint64_t` store of an `htonl`-converted value lays the bytes out
in big-endian order, which is how the stores are rendered here.
-/

/-- Big-endian byte decomposition of a 32-bit value, as laid out in memory by
a `uint32_t` store of `htonl x` on a little-endian host. -/
def toBE32 (n : ℕ) : List ℕ :=
  [n / 2 ^ 24 % 256, n / 2 ^ 16 % 256, n / 2 ^ 8 % 256, n % 256]

/-- Reassemble a 32-bit value from its big-endian bytes (`ntohl` of a load). -/
def fromBE32 (a b c d : ℕ) : ℕ :=
  ((a * 256 + b) * 256 + c) * 256 + d

/-- Big-endian byte layout of a 64-bit value.  The source builds
`ts_be = (htonl(ts & 0xFFFFFFFF) << 32) | htonl(ts >> 32)` and stores it as a
`uint64_t`; on a little-endian host the stored bytes are exactly the
big-endian bytes of the high 32-bit half followed by those of the low half. -/
def toBE64 (n : ℕ) : List ℕ :=
  toBE32 (n / 2 ^ 32) ++ toBE32 (n % 2 ^ 32)

/-- Reassemble a 64-bit value from its big-endian bytes, as
`rfc2544_get_tx_timestamp` does with its `ntohl` pair. -/
def fromBE64 (a b c d e f g h : ℕ) : ℕ :=
  fromBE32 a b c d * 2 ^ 32 + fromBE32 e f g h

/-- C `size_t` subtraction `a - b` (64-bit unsigned wrap-around), for
operands below `2^64`. -/
def sizeSub (a b : ℕ) : ℕ :=
  (a + 2 ^ 64 - b) % 2 ^ 64

/-- C `uint32_t` subtraction `a - b` (32-bit unsigned wrap-around), for
operands below `2^32`. -/
def u32Sub (a b : ℕ) : ℕ :=
  (a + 2 ^ 32 - b) % 2 ^ 32

/-- Big-endian byte layout of a 16-bit value (`htons` followed by a
`uint16_t` store on a little-endian host). -/
def toBE16 (n : ℕ) : List ℕ :=
  [n / 256 % 256, n % 256]

/-- A received or transmitted buffer: a length (the `len` argument carried
with every packet) and the byte stored at each offset. -/
structure Packet where
  len : ℕ
  byte : ℕ → ℕ

/-- Overwrite the bytes at offsets `off, off+1, …` with the given list,
modelling a `memcpy`/field store into a byte array. -/
def writeBytes (m : ℕ → ℕ) (off : ℕ) (bs : List ℕ) : ℕ → ℕ :=
  fun o => if off ≤ o ∧ o < off + bs.length then bs.getD (o - off) 0 else m o

/-- The 7 signature bytes `"RFC2544"` (`RFC2544_SIGNATURE`). -/
def rfc2544SigBytes : List ℕ := [82, 70, 67, 50, 53, 52, 52]

/-- The 7 signature bytes `"Y.1564 "` (`Y1564_SIGNATURE`). -/
def y1564SigBytes : List ℕ := [89, 46, 49, 53, 54, 52, 32]

/-- The 7 signature bytes `"Y.1731 "` (`Y1731_SIGNATURE`). -/
def y1731SigBytes : List ℕ := [89, 46, 49, 55, 51, 49, 32]

/-- The 7 signature bytes `"RFC2889"` (`RFC2889_SIGNATURE`). -/
def rfc2889SigBytes : List ℕ := [82, 70, 67, 50, 56, 56, 57]

/-- The 7 signature bytes `"RFC6349"` (`RFC6349_SIGNATURE`). -/
def rfc6349SigBytes : List ℕ := [82, 70, 67, 54, 51, 52, 57]

/-- The 7 bytes copied from `MEF_SIGNATURE "MEF48 "` (six characters and the
terminating NUL, since `MEF_SIG_LEN` is 7). -/
def mef48SigBytes : List ℕ := [77, 69, 70, 52, 56, 32, 0]

/-- The 7 bytes copied from `TSN_SIGNATURE "802Qbv"` (six characters and the
terminating NUL, since `TSN_SIG_LEN` is 7). -/
def tsnSigBytes : List ℕ := [56, 48, 50, 81, 98, 118, 0]

/-- `RFC2544_MIN_FRAME` from `rfc2544.h`. -/
def RFC2544_MIN_FRAME : ℕ := 64

/-- `memcmp(data + off, pat, pat.length) == 0`, on the byte-function model. -/
def memcmpEq (m : ℕ → ℕ) (off : ℕ) (pat : List ℕ) : Bool :=
  (List.range pat.length).all fun i => m (off + i) == pat.getD i 0

/-- `rfc2544_is_valid_response` (packet.c): the buffer is at least
`RFC2544_MIN_FRAME` bytes and the 7 bytes at offset 14+20+8 = 42 equal the
`"RFC2544"` signature. -/
def rfc2544_is_valid_response (p : Packet) : Bool :=
  if p.len < RFC2544_MIN_FRAME then false
  else memcmpEq p.byte 42 rfc2544SigBytes

/-- `rfc2544_get_seq_num` (packet.c): 0 on an invalid buffer, otherwise
`ntohl` of the 4 bytes at offset 49 (the `seq_num` payload field). -/
def rfc2544_get_seq_num (p : Packet) : ℕ :=
  if rfc2544_is_valid_response p then
    fromBE32 (p.byte 49) (p.byte 50) (p.byte 51) (p.byte 52)
  else 0

/-- `rfc2544_get_tx_timestamp` (packet.c): 0 on an invalid buffer, otherwise
the byte-swapped 8-byte timestamp at offset 53. -/
def rfc2544_get_tx_timestamp (p : Packet) : ℕ :=
  if rfc2544_is_valid_response p then
    fromBE64 (p.byte 53) (p.byte 54) (p.byte 55) (p.byte 56)
      (p.byte 57) (p.byte 58) (p.byte 59) (p.byte 60)
  else 0

/-- Ones-complement IPv4 header checksum (`ip_checksum` in packet.c) over
16-bit words read from the byte function; the C code reads host-order
(little-endian) `uint16_t` words, folds carries, and complements. -/
def ipChecksum (m : ℕ → ℕ) (off words : ℕ) : ℕ :=
  let sum := (List.range words).foldl (fun acc i => acc + (m (off + 2 * i) + 256 * m (off + 2 * i + 1))) 0
  let folded := sum % 2 ^ 16 + sum / 2 ^ 16
  let folded2 := folded % 2 ^ 16 + folded / 2 ^ 16
  (2 ^ 16 - 1) - folded2 % 2 ^ 16

/-- The byte content written by `rfc2544_create_packet_template` for an
accepted frame size: `memset` to zero, then Ethernet, IPv4 and UDP headers,
the 24-byte signature payload, and the padding pattern `i & 0xFF` from
offset 66 over `frame_size - 66` bytes of `size_t` arithmetic.  Stores are
applied in source order, later stores shadowing earlier ones.  The IP
checksum field (offsets 24–25, stored as a host-order `uint16_t`) is filled
from `ipChecksum` after the other IP fields, exactly as the source does. -/
def templateBytes (frameSize : ℕ) (srcMac dstMac : List ℕ)
    (srcIp dstIp srcPort dstPort streamId : ℕ) : ℕ → ℕ :=
  let memset : ℕ → ℕ := fun _ => 0
  let eth := writeBytes (writeBytes (writeBytes memset 0 (dstMac.take 6)) 6 (srcMac.take 6))
      12 [8, 0]
  let ipNoCk := writeBytes eth 14
      ([0x45, 0] ++ toBE16 (sizeSub frameSize 14) ++ [0x12, 0x34, 0x40, 0]
        ++ [64, 17, 0, 0] ++ toBE32 (srcIp % 2 ^ 32) ++ toBE32 (dstIp % 2 ^ 32))
  let ck := ipChecksum ipNoCk 14 10
  let ip := writeBytes ipNoCk 24 [ck % 256, ck / 256 % 256]
  let udp := writeBytes ip 34
      (toBE16 srcPort ++ toBE16 dstPort ++ toBE16 (sizeSub frameSize 34) ++ [0, 0])
  let payloadHdr := writeBytes udp 42
      (rfc2544SigBytes ++ toBE32 0 ++ toBE64 0 ++ toBE32 (streamId % 2 ^ 32) ++ [1])
  fun o =>
    if 66 ≤ o ∧ o < 66 + sizeSub frameSize 66 then (o - 66) % 256
    else payloadHdr o

/-- `rfc2544_create_packet_template` (packet.c): `NULL` — modelled as
`none` — when `frame_size < RFC2544_MIN_FRAME`, otherwise the filled
buffer. -/
def rfc2544_create_packet_template (frameSize : ℕ) (srcMac dstMac : List ℕ)
    (srcIp dstIp srcPort dstPort streamId : ℕ) : Option Packet :=
  if frameSize < RFC2544_MIN_FRAME then none
  else some ⟨frameSize, templateBytes frameSize srcMac dstMac srcIp dstIp srcPort dstPort
    streamId⟩

/-- The `(offset, length)` extent of every store `rfc2544_create_packet_template`
performs into the buffer of the caller, in source order: the `memset`, the
Ethernet, IP and UDP header stores, the five payload field stores, and the
padding loop whose length is the `size_t` difference `frame_size - 66`. -/
def templateStores (frameSize : ℕ) : List (ℕ × ℕ) :=
  [(0, frameSize),
   (0, 6), (6, 6), (12, 2),
   (14, 20),
   (34, 8),
   (42, 7), (49, 4), (53, 8), (61, 4), (65, 1),
   (66, sizeSub frameSize 66)]

/-- Every store stays inside the first `frameSize` bytes of the buffer. -/
def templateStoresInBounds (frameSize : ℕ) : Prop :=
  ∀ s ∈ templateStores frameSize, s.1 + s.2 ≤ frameSize

instance (frameSize : ℕ) : Decidable (templateStoresInBounds frameSize) := by
  unfold templateStoresInBounds; infer_instance

/-- `rfc2544_stamp_packet` (packet.c): store `htonl seq` into the 4-byte
field at offset 49 and the byte-swapped timestamp into the 8 bytes at
offset 53. -/
def rfc2544_stamp_packet (p : Packet) (seqNum tsNs : ℕ) : Packet :=
  let stamped := writeBytes (writeBytes p.byte 49 (toBE32 (seqNum % 2 ^ 32))) 53
    (toBE64 (tsNs % 2 ^ 64))
  { p with byte := stamped }

/-- The validity predicate exactly as the specification words it (spec
§4.C Validation): at least 64 bytes and the 7 bytes at UDP-payload offset 0
(buffer offset 42) equal one of the seven known signatures.  This definition
follows the wording of the spec, for comparison against the source
`rfc2544_is_valid_response`. -/
def specValidResponse (p : Packet) : Bool :=
  64 ≤ p.len &&
    (memcmpEq p.byte 42 rfc2544SigBytes || memcmpEq p.byte 42 y1564SigBytes ||
     memcmpEq p.byte 42 y1731SigBytes || memcmpEq p.byte 42 rfc2889SigBytes ||
     memcmpEq p.byte 42 rfc6349SigBytes || memcmpEq p.byte 42 mef48SigBytes ||
     memcmpEq p.byte 42 tsnSigBytes)

/- ============================================================
   Sequence tracker (packet.c, `struct seq_tracker` and its operations)
   ============================================================ -/

/-- `struct seq_tracker`: the bitmap is modelled as the set of offsets whose
bit is set; `base_seq` and `capacity` are the `uint32_t` fields and the three
counters are the `received`, `duplicates` and `out_of_order` fields. -/
structure SeqTracker where
  bitmap : Finset ℕ
  base_seq : ℕ
  capacity : ℕ
  received : ℕ
  duplicates : ℕ
  out_of_order : ℕ
deriving DecidableEq

/-- `rfc2544_seq_tracker_create`: zeroed bitmap and counters, base 0. -/
def rfc2544_seq_tracker_create (capacity : ℕ) : SeqTracker :=
  ⟨∅, 0, capacity, 0, 0, 0⟩

/-- `rfc2544_seq_tracker_record`: compute `offset = seq_num - base_seq` in
`uint32_t` arithmetic; out-of-range offsets bump `out_of_order`, an
already-set bit bumps `duplicates`, otherwise the bit is set and `received`
bumps. -/
def rfc2544_seq_tracker_record (t : SeqTracker) (seqNum : ℕ) : SeqTracker :=
  let offset := u32Sub seqNum t.base_seq
  if t.capacity ≤ offset then
    { t with out_of_order := t.out_of_order + 1 }
  else if offset ∈ t.bitmap then
    { t with duplicates := t.duplicates + 1 }
  else
    { t with bitmap := insert offset t.bitmap, received := t.received + 1 }

/-- `rfc2544_seq_tracker_stats`: `*received`, `*lost` (a `uint32_t`
subtraction `expected - received`), and `*loss_pct`, which is written only
when `expected > 0` — modelled as an `Option`, `none` when the output is
left unwritten. -/
def rfc2544_seq_tracker_stats (t : SeqTracker) (expected : ℕ) :
    ℕ × ℕ × Option ℚ :=
  (t.received,
   u32Sub expected t.received,
   if 0 < expected then some (100 * (u32Sub expected t.received : ℚ) / expected)
   else none)

/- ============================================================
   Latency statistics (packet.c, `rfc2544_calc_latency_stats`)
   ============================================================ -/

/-- `latency_stats_t` with the `double` fields carried as exact rationals. -/
structure LatencyStats where
  count : ℕ
  min_ns : ℚ
  max_ns : ℚ
  avg_ns : ℚ
  jitter_ns : ℚ
  p50_ns : ℚ
  p95_ns : ℚ
  p99_ns : ℚ
deriving DecidableEq

/-- `rfc2544_calc_latency_stats`: zero samples zero the whole record;
otherwise min/max/sum are folded over the samples (the sum in wrapping
`uint64_t` arithmetic), `avg = sum / count`, jitter is the mean absolute
deviation from the average, and the percentile approximations are
`p50 = avg`, `p95 = avg + 2·jitter`, `p99 = max`.  The `double`
computations are modelled as exact rational arithmetic. -/
def rfc2544_calc_latency_stats (samples : List ℕ) : LatencyStats :=
  if samples.isEmpty then ⟨0, 0, 0, 0, 0, 0, 0, 0⟩
  else
    let min_ns : ℕ := samples.foldl (fun m s => if s < m then s else m) (2 ^ 64 - 1)
    let max_ns : ℕ := samples.foldl (fun m s => if m < s then s else m) 0
    let sum_ns : ℕ := samples.foldl (fun acc s => (acc + s) % 2 ^ 64) 0
    let count := samples.length
    let avg : ℚ := (sum_ns : ℚ) / count
    let jitter : ℚ := (samples.foldl (fun acc s => acc + |(Nat.cast s : ℚ) - avg|) 0) / count
    ⟨count, min_ns, max_ns, avg, jitter, avg, avg + 2 * jitter, max_ns⟩

/- ============================================================
   UMEM frame allocator (xdp_platform.c)
   ============================================================ -/

/-- `FRAME_SIZE` from the XDP platform (4096-byte UMEM slots). -/
def FRAME_SIZE : ℕ := 4096

/-- `INVALID_UMEM_FRAME` (`UINT64_MAX`). -/
def INVALID_UMEM_FRAME : ℕ := 2 ^ 64 - 1

/-- `frame_allocator_t`: the `frames` array as a function from index to the
stored 64-bit slot offset, plus `head`, `tail` and `size`. -/
structure FrameAlloc where
  frames : ℕ → ℕ
  head : ℕ
  tail : ℕ
  size : ℕ

/-- `frame_alloc_init`: `size = num_frames`, `head = 0`, `tail = num_frames`,
and `frames[i] = i * FRAME_SIZE` for `i < num_frames`. -/
def frame_alloc_init (numFrames : ℕ) : FrameAlloc :=
  ⟨fun i => if i < numFrames then i * FRAME_SIZE else 0, 0, numFrames, numFrames⟩

/-- `frame_alloc_get`: returns the sentinel when `head == tail`, otherwise
dequeues `frames[head]` and advances `head` modulo `size`. -/
def frame_alloc_get (a : FrameAlloc) : ℕ × FrameAlloc :=
  if a.head = a.tail then (INVALID_UMEM_FRAME, a)
  else (a.frames a.head, { a with head := (a.head + 1) % a.size })

/-- `frame_alloc_put`: stores at index `tail` (whatever its current value,
in-bounds or not) and advances `tail` modulo `size`. -/
def frame_alloc_put (a : FrameAlloc) (frame : ℕ) : FrameAlloc :=
  { a with frames := fun i => if i = a.tail then frame else a.frames i,
           tail := (a.tail + 1) % a.size }

/- ============================================================
   Trial executor counting (core.c, `run_trial`)
   ============================================================ -/

/-- One iteration of the measurement-phase hot loop of `run_trial`, as the backend
behaviour visible to the counters: whether `send_batch` reported the packet
sent (`sent > 0`), and the batch of buffers `recv_batch` returned.  The
straggler drains after the loop are further events with `sendOk = false`. -/
structure TrialEvent where
  sendOk : Bool
  rx : List Packet

/-- The `(packets_sent, packets_recv)` counters of `run_trial` over a list of
measurement-phase events: each successful send increments `packets_sent`,
and every received buffer passing `rfc2544_is_valid_response` increments
`packets_recv` — duplicates and all. -/
def run_trial_counts (events : List TrialEvent) : ℕ × ℕ :=
  events.foldl
    (fun c e =>
      (c.1 + (if e.sendOk then 1 else 0),
       c.2 + (e.rx.filter (fun p => rfc2544_is_valid_response p)).length))
    (0, 0)

/-- The loss computation of `run_trial`: `100.0 * (packets_sent - packets_recv) /
packets_sent` where the inner subtraction is wrapping `uint64_t` arithmetic,
and `0.0` when no packet was sent. -/
def run_trial_loss_pct (sent recv : ℕ) : ℚ :=
  if 0 < sent then 100 * ((sent + 2 ^ 64 - recv) % 2 ^ 64 : ℕ) / sent else 0

/- ============================================================
   Throughput binary search (core.c, `rfc2544_throughput_test`)
   ============================================================ -/

/-- The binary-search state of `rfc2544_throughput_test`: `low`, `high`,
`best_rate` (as exact rationals standing for the `double`s) and the
iteration counter. -/
structure TpState where
  low : ℚ
  high : ℚ
  best : ℚ
  iters : ℕ
deriving DecidableEq

/-- One iteration body: `current_rate = (low + high) / 2`; a passing trial
sets `best = low = current_rate`, a failing one sets `high = current_rate`;
the iteration counter increments either way. -/
def tpStep (P : ℚ → Bool) (s : TpState) : TpState :=
  let mid := (s.low + s.high) / 2
  if P mid then ⟨mid, s.high, mid, s.iters + 1⟩
  else ⟨s.low, mid, s.best, s.iters + 1⟩

/-- The `while ((high - low) > resolution && iterations < max_iterations)`
loop, with explicit fuel; `fuel = maxIter - iters` suffices since every pass
through the body increments `iters`. -/
def tpLoop (P : ℚ → Bool) (res : ℚ) (maxIter : ℕ) : ℕ → TpState → TpState
  | 0, s => s
  | fuel + 1, s =>
    if res < s.high - s.low ∧ s.iters < maxIter then
      tpLoop P res maxIter fuel (tpStep P s)
    else s

/-- The convergence driver of `rfc2544_throughput_test` run from
`low = 0`, `high = initialRate`, `best_rate = 0`: the returned state after
the loop exits. -/
def rfc2544_throughput_search (P : ℚ → Bool) (res : ℚ) (maxIter : ℕ)
    (initialRate : ℚ) : TpState :=
  tpLoop P res maxIter maxIter ⟨0, initialRate, 0, 0⟩

/- ============================================================
   Mathis formula (rfc6349_theoretical_throughput)
   ============================================================ -/

/-- Modelled from the spec: `rfc6349_theoretical_throughput` is declared and
exercised by `src/tests/c/test_rfc6349.c` ("Forward declaration from
rfc6349.c") but its definition is absent from the sources under `src/`.
Modelled from the Mathis-formula description in the spec and boundary cases:
non-positive loss, zero RTT or zero MSS return the supplied line rate;
otherwise `throughput = (MSS·8 / RTT) · (C / sqrt(loss))` with `C = 1.22`
and `loss` the loss fraction, converted to Mb/s and capped at the line
rate. -/
noncomputable def rfc6349_theoretical_throughput (bandwidthMbps rttMs lossPct : ℝ)
    (mss : ℕ) : ℝ :=
  if lossPct ≤ 0 ∨ rttMs = 0 ∨ mss = 0 then bandwidthMbps
  else
    min ((mss * 8 / (rttMs / 1000)) * (1.22 / Real.sqrt (lossPct / 100)) / 1000000)
      bandwidthMbps

/- ============================================================
   Helper lemmas
   ============================================================ -/

theorem writeBytes_at_lt (m : ℕ → ℕ) (off : ℕ) (bs : List ℕ) (o : ℕ) (h : o < off) :
    writeBytes m off bs o = m o := by
  unfold writeBytes
  rw [if_neg]
  omega

theorem writeBytes_at_ge (m : ℕ → ℕ) (off : ℕ) (bs : List ℕ) (o : ℕ)
    (h : off + bs.length ≤ o) : writeBytes m off bs o = m o := by
  unfold writeBytes
  rw [if_neg]
  omega

theorem writeBytes_at_in (m : ℕ → ℕ) (off : ℕ) (bs : List ℕ) (o : ℕ)
    (h1 : off ≤ o) (h2 : o < off + bs.length) :
    writeBytes m off bs o = bs.getD (o - off) 0 := by
  unfold writeBytes
  rw [if_pos ⟨h1, h2⟩]

/- ============================================================
   C5 — UMEM frame allocator
   ============================================================ -/

/-- C5 (code_bug evidence).  `frame_alloc_init` sets `tail = num_frames`
while `get`/`put` reduce the indices modulo `size`.  With capacity 1 the
allocator hands out slot 0, wraps `head` back to 0, and — although no slot
is available any more — a second `get` hands out slot 0 again instead of the
sentinel, duplicating an outstanding slot.  Moreover the very first `put`
stores through index `tail = size`, one past the end of the `frames`
array. -/
theorem frame_alloc_get_duplicates_slot :
    (frame_alloc_get (frame_alloc_init 1)).1 = 0 ∧
    (frame_alloc_get (frame_alloc_get (frame_alloc_init 1)).2).1 = 0 ∧
    (frame_alloc_get (frame_alloc_get (frame_alloc_init 1)).2).1 ≠ INVALID_UMEM_FRAME ∧
    (frame_alloc_init 4).size ≤ (frame_alloc_init 4).tail := by
  refine ⟨rfl, rfl, ?_, ?_⟩
  · decide
  · decide

/- ============================================================
   C7 — packet template bounds
   ============================================================ -/

/-- C7 (code_bug evidence).  The template builder rejects frame sizes below
`RFC2544_MIN_FRAME = 64` but accepts 64 and 65, where the payload layout
already extends to offset 66 and the padding length `frame_size - 66`
underflows in `size_t` arithmetic, so stores land far beyond the
`frame_size`-byte buffer; from 66 bytes up every store is in bounds. -/
theorem packet_template_oob_at_min_frame :
    rfc2544_create_packet_template 63 [] [] 0 0 0 0 0 = none ∧
    (rfc2544_create_packet_template 64 [] [] 0 0 0 0 0).isSome = true ∧
    ¬ templateStoresInBounds 64 ∧
    templateStoresInBounds 66 ∧
    templateStoresInBounds 1518 := by
  refine ⟨rfl, rfl, by decide, by decide, by decide⟩

/- ============================================================
   C10 — sequence tracker statistics wrap-around
   ============================================================ -/

/-- C10: when more packets were received than `expected`,
`rfc2544_seq_tracker_stats` computes `lost = expected - received` in
`uint32_t` arithmetic, wrapping to `2^32 - (received - expected)`, and the
loss percentage `100·lost/expected` then exceeds 100; when `expected = 0`
the `loss_pct` output is not written (`none`). -/
theorem seq_tracker_stats_wraparound (t : SeqTracker) (expected : ℕ)
    (hr : t.received < 2 ^ 32) (he : expected < t.received) :
    (rfc2544_seq_tracker_stats t expected).1 = t.received ∧
    (rfc2544_seq_tracker_stats t expected).2.1 = 2 ^ 32 - (t.received - expected) ∧
    (0 < expected →
      (rfc2544_seq_tracker_stats t expected).2.2 =
        some (100 * ((2 ^ 32 - (t.received - expected) : ℕ) : ℚ) / expected) ∧
      ∀ q : ℚ, (rfc2544_seq_tracker_stats t expected).2.2 = some q → 100 < q) ∧
    (expected = 0 → (rfc2544_seq_tracker_stats t expected).2.2 = none) := by
  have hwrap : u32Sub expected t.received = 2 ^ 32 - (t.received - expected) := by
    unfold u32Sub
    omega
  refine ⟨rfl, hwrap, fun hpos => ⟨?_, ?_⟩, fun h0 => ?_⟩
  · simp only [rfc2544_seq_tracker_stats, hwrap, if_pos hpos]
  · intro q hq
    simp only [rfc2544_seq_tracker_stats, hwrap, if_pos hpos, Option.some.injEq] at hq
    subst hq
    have hlt : (expected : ℚ) < ((2 ^ 32 - (t.received - expected) : ℕ) : ℚ) := by
      exact_mod_cast (by omega : expected < 2 ^ 32 - (t.received - expected))
    have hep : (0 : ℚ) < expected := by exact_mod_cast hpos
    rw [lt_div_iff₀ hep]
    nlinarith
  · simp only [rfc2544_seq_tracker_stats, if_neg (by omega : ¬ 0 < expected)]

/-- Witness for `seq_tracker_stats_wraparound` at a concrete tracker with
5 received packets against 3 expected. -/
theorem seq_tracker_stats_wraparound_witness :
    (5 : ℕ) < 2 ^ 32 ∧ (3 : ℕ) < 5 ∧
    (rfc2544_seq_tracker_stats ⟨∅, 0, 10, 5, 0, 0⟩ 3).2.1 = 2 ^ 32 - 2 := by
  refine ⟨by decide, by decide, ?_⟩
  exact (seq_tracker_stats_wraparound ⟨∅, 0, 10, 5, 0, 0⟩ 3 (by decide) (by decide)).2.1

/- ============================================================
   C6 — response validation
   ============================================================ -/

/-- C6 counterexample: a 64-byte buffer carrying the `"Y.1564 "` signature
satisfies the disjunctive validity predicate of the spec, yet
`rfc2544_is_valid_response` — which compares against `"RFC2544"` only —
rejects it. -/
theorem valid_response_rejects_y1564 :
    specValidResponse ⟨64, writeBytes (fun _ => 0) 42 y1564SigBytes⟩ = true ∧
    rfc2544_is_valid_response ⟨64, writeBytes (fun _ => 0) 42 y1564SigBytes⟩ = false := by
  exact ⟨by decide, by decide⟩

/-- C6 amended: `rfc2544_is_valid_response` accepts exactly the buffers of
at least 64 bytes whose 7 bytes at offset 42 equal the `"RFC2544"`
signature (not any of the other known signatures), and on every rejected
buffer both `rfc2544_get_seq_num` and `rfc2544_get_tx_timestamp` return 0. -/
theorem valid_response_rfc2544_only (p : Packet) :
    (rfc2544_is_valid_response p = true ↔
      (64 ≤ p.len ∧ ∀ i < 7, p.byte (42 + i) = rfc2544SigBytes.getD i 0)) ∧
    (rfc2544_is_valid_response p = false →
      rfc2544_get_seq_num p = 0 ∧ rfc2544_get_tx_timestamp p = 0) := by
  constructor
  · unfold rfc2544_is_valid_response RFC2544_MIN_FRAME memcmpEq
    constructor
    · intro h
      by_cases hlen : p.len < 64
      · rw [if_pos hlen] at h
        exact absurd h (by decide)
      · rw [if_neg hlen] at h
        refine ⟨by omega, fun i hi => ?_⟩
        rw [List.all_eq_true] at h
        have := h i (by simpa using hi)
        simpa using this
    · rintro ⟨hlen, hsig⟩
      rw [if_neg (by omega)]
      rw [List.all_eq_true]
      intro i hi
      simp only [List.mem_range] at hi
      simpa using hsig i (by simpa using hi)
  · intro hinv
    unfold rfc2544_get_seq_num rfc2544_get_tx_timestamp
    rw [hinv]
    exact ⟨rfl, rfl⟩

/-- Witness for `valid_response_rfc2544_only` on the all-zero empty buffer,
which is invalid, so both readers return 0. -/
theorem valid_response_rfc2544_only_witness :
    rfc2544_is_valid_response ⟨0, fun _ => 0⟩ = false ∧
    rfc2544_get_seq_num ⟨0, fun _ => 0⟩ = 0 ∧
    rfc2544_get_tx_timestamp ⟨0, fun _ => 0⟩ = 0 := by
  refine ⟨by decide, ?_⟩
  exact (valid_response_rfc2544_only ⟨0, fun _ => 0⟩).2 (by decide)

/- ============================================================
   C2 — trial loss accounting
   ============================================================ -/

/-- C2 counterexample: a backend that reflects one sent frame back twice
(for example, duplicated frames) makes `run_trial` count `packets_recv = 2`
against `packets_sent = 1`, and the `uint64_t` subtraction inside the loss
computation then wraps, producing a loss percentage far above 100 — so
neither `packets_recv ≤ packets_sent` nor `loss_pct ∈ [0, 100]` holds for
every backend behaviour. -/
theorem run_trial_recv_exceeds_sent :
    (run_trial_counts [⟨true, [⟨64, writeBytes (fun _ => 0) 42 rfc2544SigBytes⟩,
        ⟨64, writeBytes (fun _ => 0) 42 rfc2544SigBytes⟩]⟩]).1 <
      (run_trial_counts [⟨true, [⟨64, writeBytes (fun _ => 0) 42 rfc2544SigBytes⟩,
        ⟨64, writeBytes (fun _ => 0) 42 rfc2544SigBytes⟩]⟩]).2 ∧
    100 < run_trial_loss_pct 1 2 := by
  constructor
  · decide
  · unfold run_trial_loss_pct
    norm_num

/-- C2 amended: `packets_recv` counts every buffer passing
`rfc2544_is_valid_response`, so it can exceed `packets_sent` under
duplicated or late reflected frames; whenever `packets_recv ≤ packets_sent`
(every sent measurement frame reflected at most once) the loss percentage
`100·(sent−recv)/sent` lies in `[0, 100]`, and when `packets_sent = 0` the
returned loss is 0. -/
theorem run_trial_loss_bounds (events : List TrialEvent) :
    ((run_trial_counts events).2 ≤ (run_trial_counts events).1 →
      (run_trial_counts events).1 < 2 ^ 64 →
      0 ≤ run_trial_loss_pct (run_trial_counts events).1 (run_trial_counts events).2 ∧
      run_trial_loss_pct (run_trial_counts events).1 (run_trial_counts events).2 ≤ 100) ∧
    ((run_trial_counts events).1 = 0 →
      run_trial_loss_pct (run_trial_counts events).1 (run_trial_counts events).2 = 0) := by
  set sent := (run_trial_counts events).1 with hs
  set recv := (run_trial_counts events).2 with hrv
  constructor
  · intro hle hlt
    unfold run_trial_loss_pct
    by_cases hpos : 0 < sent
    · rw [if_pos hpos]
      have hmod : (sent + 2 ^ 64 - recv) % 2 ^ 64 = sent - recv := by omega
      rw [hmod]
      have hsq : (0 : ℚ) < (sent : ℚ) := by exact_mod_cast hpos
      constructor
      · positivity
      · rw [div_le_iff₀ hsq]
        have : ((sent - recv : ℕ) : ℚ) ≤ (sent : ℚ) := by
          exact_mod_cast Nat.sub_le sent recv
        nlinarith
    · rw [if_neg hpos]
      norm_num
  · intro h0
    unfold run_trial_loss_pct
    rw [if_neg (by omega)]

/-- Witness for `run_trial_loss_bounds` on a single-iteration trace where
one packet is sent and none comes back: loss is 100 %. -/
theorem run_trial_loss_bounds_witness :
    (run_trial_counts [⟨true, []⟩]).2 ≤ (run_trial_counts [⟨true, []⟩]).1 ∧
    (run_trial_counts [⟨true, []⟩]).1 < 2 ^ 64 ∧
    0 ≤ run_trial_loss_pct (run_trial_counts [⟨true, []⟩]).1
      (run_trial_counts [⟨true, []⟩]).2 := by
  refine ⟨by decide, by decide, ?_⟩
  exact ((run_trial_loss_bounds [⟨true, []⟩]).1 (by decide) (by decide)).1

/- ============================================================
   C3 — latency statistics
   ============================================================ -/

theorem latencyFoldMin_le (l : List ℕ) (a : ℕ) :
    l.foldl (fun m s => if s < m then s else m) a ≤ a ∧
    ∀ x ∈ l, l.foldl (fun m s => if s < m then s else m) a ≤ x := by
  induction l generalizing a with
  | nil => simp
  | cons s t ih =>
    simp only [List.foldl_cons, List.mem_cons]
    have hstep : (if s < a then s else a) ≤ a ∧ (if s < a then s else a) ≤ s := by
      split <;> omega
    refine ⟨le_trans (ih _).1 hstep.1, ?_⟩
    rintro x (rfl | hx)
    · exact le_trans (ih _).1 hstep.2
    · exact (ih _).2 x hx

theorem latencyFoldMax_ge (l : List ℕ) (a : ℕ) :
    a ≤ l.foldl (fun m s => if m < s then s else m) a ∧
    ∀ x ∈ l, x ≤ l.foldl (fun m s => if m < s then s else m) a := by
  induction l generalizing a with
  | nil => simp
  | cons s t ih =>
    simp only [List.foldl_cons, List.mem_cons]
    have hstep : a ≤ (if a < s then s else a) ∧ s ≤ (if a < s then s else a) := by
      split <;> omega
    refine ⟨le_trans hstep.1 (ih _).1, ?_⟩
    rintro x (rfl | hx)
    · exact le_trans hstep.2 (ih _).1
    · exact (ih _).2 x hx

theorem latencyFoldSum_eq (l : List ℕ) (a : ℕ) (h : a + l.sum < 2 ^ 64) :
    l.foldl (fun acc s => (acc + s) % 2 ^ 64) a = a + l.sum := by
  induction l generalizing a with
  | nil => simp
  | cons s t ih =>
    simp only [List.foldl_cons, List.sum_cons] at h ⊢
    rw [Nat.mod_eq_of_lt (by omega), ih (a + s) (by omega)]
    omega

theorem list_length_mul_le_sum (l : List ℕ) (m : ℕ) (h : ∀ x ∈ l, m ≤ x) :
    l.length * m ≤ l.sum := by
  induction l with
  | nil => simp
  | cons s t ih =>
    simp only [List.length_cons, List.sum_cons]
    have := h s (by simp)
    have := ih fun x hx => h x (by simp [hx])
    nlinarith

theorem list_sum_le_length_mul (l : List ℕ) (m : ℕ) (h : ∀ x ∈ l, x ≤ m) :
    l.sum ≤ l.length * m := by
  induction l with
  | nil => simp
  | cons s t ih =>
    simp only [List.length_cons, List.sum_cons]
    have := h s (by simp)
    have := ih fun x hx => h x (by simp [hx])
    nlinarith

theorem latencyFoldAbs_nonneg (l : List ℕ) (c : ℚ) (a : ℚ) (ha : 0 ≤ a) :
    0 ≤ l.foldl (fun acc s => acc + |(Nat.cast s : ℚ) - c|) a := by
  induction l generalizing a with
  | nil => exact ha
  | cons s t ih =>
    rw [List.foldl_cons]
    exact ih _ (by positivity)

/-- C3 counterexample: on the samples `[0, 10, 10, 10]` the approximation
`p95 = avg + 2·jitter = 7.5 + 7.5 = 15` exceeds `p99 = max = 10`, so the
claimed chain `p50 ≤ p95 ≤ p99 ≤ max` fails on the code. -/
theorem latency_stats_p95_exceeds_p99 :
    (rfc2544_calc_latency_stats [0, 10, 10, 10]).p99_ns <
      (rfc2544_calc_latency_stats [0, 10, 10, 10]).p95_ns := by
  have h1 : |(15 : ℚ) / 2| = 15 / 2 := by norm_num [abs_of_nonneg]
  have h2 : |(5 : ℚ) / 2| = 5 / 2 := by norm_num [abs_of_nonneg]
  norm_num [rfc2544_calc_latency_stats, h1, h2]

/-- C3 amended: with no samples every field of the output is 0; with
samples present (and the `uint64_t` running sum not wrapping) the output
satisfies `min ≤ avg ≤ max`, `jitter ≥ 0`, `p50 ≤ p95`, and
`p50 ≤ p99 ≤ max`; the approximation `p95 = avg + 2·jitter` is not bounded
by `p99 = max`, so that link of the claimed chain is dropped. -/
theorem latency_stats_bounds (samples : List ℕ) (hne : samples ≠ [])
    (hsum : samples.sum < 2 ^ 64) :
    (rfc2544_calc_latency_stats samples).min_ns ≤ (rfc2544_calc_latency_stats samples).avg_ns ∧
    (rfc2544_calc_latency_stats samples).avg_ns ≤ (rfc2544_calc_latency_stats samples).max_ns ∧
    0 ≤ (rfc2544_calc_latency_stats samples).jitter_ns ∧
    (rfc2544_calc_latency_stats samples).p50_ns ≤ (rfc2544_calc_latency_stats samples).p95_ns ∧
    (rfc2544_calc_latency_stats samples).p50_ns ≤ (rfc2544_calc_latency_stats samples).p99_ns ∧
    (rfc2544_calc_latency_stats samples).p99_ns ≤ (rfc2544_calc_latency_stats samples).max_ns ∧
    rfc2544_calc_latency_stats [] = ⟨0, 0, 0, 0, 0, 0, 0, 0⟩ := by
  have hempty : samples.isEmpty = false := by
    cases samples with
    | nil => exact absurd rfl hne
    | cons a t => rfl
  have hcalc : rfc2544_calc_latency_stats samples =
      ⟨samples.length,
       (samples.foldl (fun m s => if s < m then s else m) (2 ^ 64 - 1) : ℕ),
       (samples.foldl (fun m s => if m < s then s else m) 0 : ℕ),
       ((samples.foldl (fun acc s => (acc + s) % 2 ^ 64) 0 : ℕ) : ℚ) / samples.length,
       (samples.foldl (fun acc s => acc + |(Nat.cast s : ℚ) -
         ((samples.foldl (fun acc s => (acc + s) % 2 ^ 64) 0 : ℕ) : ℚ) / samples.length|) 0) /
           samples.length,
       ((samples.foldl (fun acc s => (acc + s) % 2 ^ 64) 0 : ℕ) : ℚ) / samples.length,
       ((samples.foldl (fun acc s => (acc + s) % 2 ^ 64) 0 : ℕ) : ℚ) / samples.length +
         2 * ((samples.foldl (fun acc s => acc + |(Nat.cast s : ℚ) -
           ((samples.foldl (fun acc s => (acc + s) % 2 ^ 64) 0 : ℕ) : ℚ) / samples.length|) 0) /
             samples.length),
       (samples.foldl (fun m s => if m < s then s else m) 0 : ℕ)⟩ := by
    rw [rfc2544_calc_latency_stats, if_neg (by simp [hempty])]
  rw [hcalc]
  have hwrap : samples.foldl (fun acc s => (acc + s) % 2 ^ 64) 0 = samples.sum := by
    have := latencyFoldSum_eq samples 0 (by omega)
    omega
  have hn : 0 < samples.length := List.length_pos.mpr hne
  have hnq : (0 : ℚ) < samples.length := by exact_mod_cast hn
  have hmin := latencyFoldMin_le samples (2 ^ 64 - 1)
  have hmax := latencyFoldMax_ge samples 0
  have hsum_lo : samples.length * (samples.foldl (fun m s => if s < m then s else m)
      (2 ^ 64 - 1)) ≤ samples.sum :=
    list_length_mul_le_sum samples _ hmin.2
  have hsum_hi : samples.sum ≤ samples.length * (samples.foldl (fun m s => if m < s then s else m)
      0) :=
    list_sum_le_length_mul samples _ hmax.2
  have hjit : 0 ≤ (samples.foldl (fun acc s => acc + |(Nat.cast s : ℚ) -
      ((samples.foldl (fun acc s => (acc + s) % 2 ^ 64) 0 : ℕ) : ℚ) / samples.length|) 0) /
        samples.length := by
    apply div_nonneg _ (le_of_lt hnq)
    exact latencyFoldAbs_nonneg samples _ 0 le_rfl
  refine ⟨?_, ?_, hjit, by linarith, ?_, le_refl _, rfl⟩
  · rw [hwrap, le_div_iff₀ hnq]
    have : ((samples.length * (samples.foldl (fun m s => if s < m then s else m)
        (2 ^ 64 - 1)) : ℕ) : ℚ) ≤ ((samples.sum : ℕ) : ℚ) := by exact_mod_cast hsum_lo
    push_cast at this ⊢
    nlinarith
  · rw [hwrap, div_le_iff₀ hnq]
    have : ((samples.sum : ℕ) : ℚ) ≤ ((samples.length * (samples.foldl
        (fun m s => if m < s then s else m) 0) : ℕ) : ℚ) := by exact_mod_cast hsum_hi
    push_cast at this ⊢
    nlinarith
  · rw [hwrap, div_le_iff₀ hnq]
    have : ((samples.sum : ℕ) : ℚ) ≤ ((samples.length * (samples.foldl
        (fun m s => if m < s then s else m) 0) : ℕ) : ℚ) := by exact_mod_cast hsum_hi
    push_cast at this ⊢
    nlinarith

/-- Witness for `latency_stats_bounds` on the samples `[0, 10, 10, 10]`. -/
theorem latency_stats_bounds_witness :
    ([0, 10, 10, 10] : List ℕ) ≠ [] ∧ ([0, 10, 10, 10] : List ℕ).sum < 2 ^ 64 ∧
    (rfc2544_calc_latency_stats [0, 10, 10, 10]).min_ns ≤
      (rfc2544_calc_latency_stats [0, 10, 10, 10]).avg_ns := by
  refine ⟨by decide, by decide, ?_⟩
  exact (latency_stats_bounds [0, 10, 10, 10] (by decide) (by decide)).1

/- ============================================================
   C4 — sequence tracker recording
   ============================================================ -/

theorem seqTrackerRecord_sum (t : SeqTracker) (s : ℕ) :
    (rfc2544_seq_tracker_record t s).received +
      (rfc2544_seq_tracker_record t s).duplicates +
      (rfc2544_seq_tracker_record t s).out_of_order =
    t.received + t.duplicates + t.out_of_order + 1 := by
  simp only [rfc2544_seq_tracker_record]
  split_ifs <;> simp <;> omega

theorem seqTrackerFold_sum (l : List ℕ) (t : SeqTracker) :
    (l.foldl rfc2544_seq_tracker_record t).received +
      (l.foldl rfc2544_seq_tracker_record t).duplicates +
      (l.foldl rfc2544_seq_tracker_record t).out_of_order =
    t.received + t.duplicates + t.out_of_order + l.length := by
  induction l generalizing t with
  | nil => simp
  | cons s t' ih =>
    rw [List.foldl_cons, ih, seqTrackerRecord_sum, List.length_cons]
    omega

theorem seqTrackerFold_received (l : List ℕ) (t : SeqTracker)
    (hbase : t.base_seq = 0) (hcap32 : t.capacity < 2 ^ 32)
    (hl : ∀ s ∈ l, s < t.capacity ∧ s ∉ t.bitmap) (hnd : l.Nodup) :
    (l.foldl rfc2544_seq_tracker_record t).received = t.received + l.length := by
  induction l generalizing t with
  | nil => simp
  | cons s rest ih =>
    rw [List.foldl_cons]
    have hs := hl s (by simp)
    have hoff : u32Sub s t.base_seq = s := by
      unfold u32Sub
      omega
    have hstep : rfc2544_seq_tracker_record t s =
        { t with bitmap := insert s t.bitmap, received := t.received + 1 } := by
      unfold rfc2544_seq_tracker_record
      rw [hoff, if_neg (by omega), if_neg hs.2]
    rw [hstep]
    have hnds : s ∉ rest := (List.nodup_cons.mp hnd).1
    have hrest : ∀ x ∈ rest,
        x < ({ t with bitmap := insert s t.bitmap,
                      received := t.received + 1 } : SeqTracker).capacity ∧
        x ∉ ({ t with bitmap := insert s t.bitmap,
                      received := t.received + 1 } : SeqTracker).bitmap := by
      intro x hx
      have hxl := hl x (by simp [hx])
      refine ⟨hxl.1, ?_⟩
      simp only [Finset.mem_insert]
      push_neg
      exact ⟨fun hxs => hnds (hxs ▸ hx), hxl.2⟩
    rw [ih { t with bitmap := insert s t.bitmap, received := t.received + 1 }
      hbase hcap32 hrest (List.nodup_cons.mp hnd).2]
    simp only [List.length_cons]
    omega

/-- C4: each `record` call bumps exactly one of the three counters according
to the claimed case split (out-of-range offset, already-set bit, fresh
in-range bit); over any call sequence the three counters sum to the number
of calls; and `n` distinct in-range sequence numbers recorded into a fresh
tracker yield `received = n`. -/
theorem seq_tracker_record_counts (cap : ℕ) (hcap : cap < 2 ^ 32) (l : List ℕ)
    (hl : ∀ s ∈ l, s < cap) (hnd : l.Nodup) :
    (∀ (t : SeqTracker) (s : ℕ),
      (t.capacity ≤ u32Sub s t.base_seq →
        rfc2544_seq_tracker_record t s = { t with out_of_order := t.out_of_order + 1 }) ∧
      (u32Sub s t.base_seq < t.capacity → u32Sub s t.base_seq ∈ t.bitmap →
        rfc2544_seq_tracker_record t s = { t with duplicates := t.duplicates + 1 }) ∧
      (u32Sub s t.base_seq < t.capacity → u32Sub s t.base_seq ∉ t.bitmap →
        rfc2544_seq_tracker_record t s =
          { t with bitmap := insert (u32Sub s t.base_seq) t.bitmap,
                   received := t.received + 1 })) ∧
    (∀ t : SeqTracker,
      (l.foldl rfc2544_seq_tracker_record t).received +
        (l.foldl rfc2544_seq_tracker_record t).duplicates +
        (l.foldl rfc2544_seq_tracker_record t).out_of_order =
      t.received + t.duplicates + t.out_of_order + l.length) ∧
    (l.foldl rfc2544_seq_tracker_record (rfc2544_seq_tracker_create cap)).received =
      l.length := by
  refine ⟨fun t s => ⟨fun h1 => ?_, fun h1 h2 => ?_, fun h1 h2 => ?_⟩,
    fun t => seqTrackerFold_sum l t, ?_⟩
  · unfold rfc2544_seq_tracker_record
    rw [if_pos h1]
  · unfold rfc2544_seq_tracker_record
    rw [if_neg (by omega), if_pos h2]
  · unfold rfc2544_seq_tracker_record
    rw [if_neg (by omega), if_neg h2]
  · rw [seqTrackerFold_received l (rfc2544_seq_tracker_create cap) rfl hcap
      (fun s hs => ⟨hl s hs, by simp [rfc2544_seq_tracker_create]⟩) hnd]
    simp [rfc2544_seq_tracker_create]

/-- Witness for `seq_tracker_record_counts`: three distinct in-range
sequence numbers recorded into a fresh capacity-10 tracker. -/
theorem seq_tracker_record_counts_witness :
    (10 : ℕ) < 2 ^ 32 ∧ (∀ s ∈ ([0, 1, 2] : List ℕ), s < 10) ∧
      ([0, 1, 2] : List ℕ).Nodup ∧
    (([0, 1, 2] : List ℕ).foldl rfc2544_seq_tracker_record
      (rfc2544_seq_tracker_create 10)).received = ([0, 1, 2] : List ℕ).length := by
  refine ⟨by decide, by decide, by decide, ?_⟩
  exact (seq_tracker_record_counts 10 (by decide) [0, 1, 2] (by decide) (by decide)).2.2

/- ============================================================
   C8 — stamp / parse round trip
   ============================================================ -/

theorem fromBE32_toBE32 (n : ℕ) (h : n < 2 ^ 32) :
    fromBE32 (n / 2 ^ 24 % 256) (n / 2 ^ 16 % 256) (n / 2 ^ 8 % 256) (n % 256) = n := by
  unfold fromBE32
  omega

theorem templateBytes_sig (fs : ℕ) (sm dm : List ℕ) (si di sp dp st : ℕ)
    (i : ℕ) (hi : i < 7) :
    templateBytes fs sm dm si di sp dp st (42 + i) = rfc2544SigBytes.getD i 0 := by
  simp only [templateBytes]
  rw [if_neg (by omega)]
  rw [writeBytes_at_in _ _ _ _ (by omega)
    (by simp [rfc2544SigBytes, toBE32, toBE64]; omega)]
  rw [show 42 + i - 42 = i by omega]
  rw [List.getD_append _ _ _ _ (by simp [rfc2544SigBytes, toBE32, toBE64]; omega)]
  rw [List.getD_append _ _ _ _ (by simp [rfc2544SigBytes, toBE32, toBE64]; omega)]
  rw [List.getD_append _ _ _ _ (by simp [rfc2544SigBytes, toBE32, toBE64]; omega)]
  rw [List.getD_append _ _ _ _ (by simp [rfc2544SigBytes]; omega)]

/-- C8: stamping any template built for a frame size of at least 66 bytes
with a 32-bit sequence number and a 64-bit nanosecond timestamp and then
parsing the buffer recovers exactly the stamped values. -/
theorem stamp_parse_roundtrip (fs : ℕ) (hfs : 66 ≤ fs) (sm dm : List ℕ)
    (si di sp dp st seq ts : ℕ) (hseq : seq < 2 ^ 32) (hts : ts < 2 ^ 64) (p : Packet)
    (hp : rfc2544_create_packet_template fs sm dm si di sp dp st = some p) :
    rfc2544_get_seq_num (rfc2544_stamp_packet p seq ts) = seq ∧
    rfc2544_get_tx_timestamp (rfc2544_stamp_packet p seq ts) = ts := by
  rw [rfc2544_create_packet_template, if_neg (by unfold RFC2544_MIN_FRAME; omega),
    Option.some.injEq] at hp
  subst hp
  set tb := templateBytes fs sm dm si di sp dp st with htb
  have hseqm : seq % 2 ^ 32 = seq := Nat.mod_eq_of_lt hseq
  have htsm : ts % 2 ^ 64 = ts := Nat.mod_eq_of_lt hts
  have hq : rfc2544_stamp_packet ⟨fs, tb⟩ seq ts =
      ⟨fs, writeBytes (writeBytes tb 49 (toBE32 seq)) 53 (toBE64 ts)⟩ := by
    unfold rfc2544_stamp_packet
    rw [hseqm, htsm]
  rw [hq]
  set sb := writeBytes (writeBytes tb 49 (toBE32 seq)) 53 (toBE64 ts) with hsb
  have hbyte_sig : ∀ i < 7, sb (42 + i) = rfc2544SigBytes.getD i 0 := by
    intro i hi
    rw [hsb, writeBytes_at_lt _ _ _ _ (by omega), writeBytes_at_lt _ _ _ _ (by omega), htb]
    exact templateBytes_sig fs sm dm si di sp dp st i hi
  have hvalid : rfc2544_is_valid_response ⟨fs, sb⟩ = true := by
    unfold rfc2544_is_valid_response RFC2544_MIN_FRAME memcmpEq
    rw [if_neg (by show ¬ fs < 64; omega)]
    rw [List.all_eq_true]
    intro i hi
    simp only [List.mem_range, rfc2544SigBytes, List.length_cons, List.length_nil] at hi
    have := hbyte_sig i (by omega)
    simpa using this
  have e49 : sb 49 = seq / 2 ^ 24 % 256 := by
    rw [hsb, writeBytes_at_lt _ _ _ _ (by omega),
      writeBytes_at_in _ _ _ _ (by omega) (by simp [toBE32])]
    simp [toBE32]
  have e50 : sb 50 = seq / 2 ^ 16 % 256 := by
    rw [hsb, writeBytes_at_lt _ _ _ _ (by omega),
      writeBytes_at_in _ _ _ _ (by omega) (by simp [toBE32])]
    simp [toBE32]
  have e51 : sb 51 = seq / 2 ^ 8 % 256 := by
    rw [hsb, writeBytes_at_lt _ _ _ _ (by omega),
      writeBytes_at_in _ _ _ _ (by omega) (by simp [toBE32])]
    simp [toBE32]
  have e52 : sb 52 = seq % 256 := by
    rw [hsb, writeBytes_at_lt _ _ _ _ (by omega),
      writeBytes_at_in _ _ _ _ (by omega) (by simp [toBE32])]
    simp [toBE32]
  have e53 : sb 53 = ts / 2 ^ 32 / 2 ^ 24 % 256 := by
    rw [hsb, writeBytes_at_in _ _ _ _ (by omega) (by simp [toBE64, toBE32])]
    simp [toBE64, toBE32]
  have e54 : sb 54 = ts / 2 ^ 32 / 2 ^ 16 % 256 := by
    rw [hsb, writeBytes_at_in _ _ _ _ (by omega) (by simp [toBE64, toBE32])]
    simp [toBE64, toBE32]
  have e55 : sb 55 = ts / 2 ^ 32 / 2 ^ 8 % 256 := by
    rw [hsb, writeBytes_at_in _ _ _ _ (by omega) (by simp [toBE64, toBE32])]
    simp [toBE64, toBE32]
  have e56 : sb 56 = ts / 2 ^ 32 % 256 := by
    rw [hsb, writeBytes_at_in _ _ _ _ (by omega) (by simp [toBE64, toBE32])]
    simp [toBE64, toBE32]
  have e57 : sb 57 = ts % 2 ^ 32 / 2 ^ 24 % 256 := by
    rw [hsb, writeBytes_at_in _ _ _ _ (by omega) (by simp [toBE64, toBE32])]
    simp [toBE64, toBE32]
  have e58 : sb 58 = ts % 2 ^ 32 / 2 ^ 16 % 256 := by
    rw [hsb, writeBytes_at_in _ _ _ _ (by omega) (by simp [toBE64, toBE32])]
    simp [toBE64, toBE32]
  have e59 : sb 59 = ts % 2 ^ 32 / 2 ^ 8 % 256 := by
    rw [hsb, writeBytes_at_in _ _ _ _ (by omega) (by simp [toBE64, toBE32])]
    simp [toBE64, toBE32]
  have e60 : sb 60 = ts % 2 ^ 32 % 256 := by
    rw [hsb, writeBytes_at_in _ _ _ _ (by omega) (by simp [toBE64, toBE32])]
    simp [toBE64, toBE32]
  constructor
  · rw [rfc2544_get_seq_num, if_pos hvalid]
    show fromBE32 (sb 49) (sb 50) (sb 51) (sb 52) = seq
    rw [e49, e50, e51, e52]
    exact fromBE32_toBE32 seq hseq
  · rw [rfc2544_get_tx_timestamp, if_pos hvalid]
    show fromBE64 (sb 53) (sb 54) (sb 55) (sb 56) (sb 57) (sb 58) (sb 59) (sb 60) = ts
    rw [e53, e54, e55, e56, e57, e58, e59, e60]
    unfold fromBE64
    rw [fromBE32_toBE32 (ts / 2 ^ 32) (by omega), fromBE32_toBE32 (ts % 2 ^ 32) (by omega)]
    omega

/-- Witness for `stamp_parse_roundtrip`: a 66-byte template stamped with
sequence number 7 and timestamp `2^40 + 5`. -/
theorem stamp_parse_roundtrip_witness :
    (66 : ℕ) ≤ 66 ∧ (7 : ℕ) < 2 ^ 32 ∧ (2 ^ 40 + 5 : ℕ) < 2 ^ 64 ∧
    rfc2544_get_seq_num (rfc2544_stamp_packet
      ⟨66, templateBytes 66 [2, 0, 0, 0, 0, 1] [2, 0, 0, 0, 0, 2] 1 2 12345 3842 0⟩
      7 (2 ^ 40 + 5)) = 7 := by
  refine ⟨le_refl _, by norm_num, by norm_num, ?_⟩
  exact (stamp_parse_roundtrip 66 (le_refl _) [2, 0, 0, 0, 0, 1] [2, 0, 0, 0, 0, 2]
    1 2 12345 3842 0 7 (2 ^ 40 + 5) (by norm_num) (by norm_num) _ rfl).1

/- ============================================================
   C9 — Mathis formula
   ============================================================ -/

/-- C9: the Mathis-formula helper returns the supplied line rate for zero
(or negative) loss, zero RTT, or zero MSS, and on 1 Gb/s / 10 ms RTT /
1 % loss / MSS 1460 it yields 14.2496 Mb/s, within 0.5 of the documented
14.25 Mb/s. -/
theorem mathis_throughput_properties :
    (∀ bw rtt : ℝ, ∀ mss : ℕ, rfc6349_theoretical_throughput bw rtt 0 mss = bw) ∧
    (∀ bw loss : ℝ, ∀ mss : ℕ, rfc6349_theoretical_throughput bw 0 loss mss = bw) ∧
    (∀ bw rtt loss : ℝ, rfc6349_theoretical_throughput bw rtt loss 0 = bw) ∧
    |rfc6349_theoretical_throughput 1000 10 1 1460 - 14.25| ≤ 0.5 := by
  refine ⟨fun bw rtt mss => ?_, fun bw loss mss => ?_, fun bw rtt loss => ?_, ?_⟩
  · unfold rfc6349_theoretical_throughput
    rw [if_pos (Or.inl le_rfl)]
  · unfold rfc6349_theoretical_throughput
    rw [if_pos (Or.inr (Or.inl rfl))]
  · unfold rfc6349_theoretical_throughput
    rw [if_pos (Or.inr (Or.inr rfl))]
  · unfold rfc6349_theoretical_throughput
    rw [if_neg (by push_neg; norm_num)]
    have hs : Real.sqrt ((1 : ℝ) / 100) = 1 / 10 := by
      rw [show (1 : ℝ) / 100 = (1 / 10) ^ 2 by norm_num, Real.sqrt_sq (by norm_num)]
    rw [hs]
    have hv : ((1460 : ℕ) : ℝ) * 8 / ((10 : ℝ) / 1000) * (1.22 / (1 / 10)) / 1000000 =
        14.2496 := by
      norm_num
    rw [hv, min_eq_left (by norm_num)]
    rw [abs_le]
    constructor <;> norm_num

/- ============================================================
   C1 — throughput binary search convergence
   ============================================================ -/

theorem tpStep_iters (P : ℚ → Bool) (s : TpState) :
    (tpStep P s).iters = s.iters + 1 := by
  simp only [tpStep]
  split_ifs <;> rfl

theorem tpStep_width (P : ℚ → Bool) (s : TpState) :
    (tpStep P s).high - (tpStep P s).low = (s.high - s.low) / 2 := by
  simp only [tpStep]
  split_ifs <;> simp <;> ring

theorem tpLoop_iters_mono (P : ℚ → Bool) (res : ℚ) (maxIter : ℕ) :
    ∀ (fuel : ℕ) (s : TpState), s.iters ≤ (tpLoop P res maxIter fuel s).iters := by
  intro fuel
  induction fuel with
  | zero => intro s; exact le_rfl
  | succ f ih =>
    intro s
    simp only [tpLoop]
    split_ifs with h
    · calc s.iters ≤ (tpStep P s).iters := by rw [tpStep_iters]; omega
        _ ≤ _ := ih (tpStep P s)
    · exact le_rfl

theorem tpLoop_iters_le (P : ℚ → Bool) (res : ℚ) (maxIter : ℕ) :
    ∀ (fuel : ℕ) (s : TpState), s.iters ≤ maxIter →
      (tpLoop P res maxIter fuel s).iters ≤ maxIter := by
  intro fuel
  induction fuel with
  | zero => intro s hs; exact hs
  | succ f ih =>
    intro s hs
    simp only [tpLoop]
    split_ifs with h
    · exact ih (tpStep P s) (by rw [tpStep_iters]; omega)
    · exact hs

theorem tpLoop_width (P : ℚ → Bool) (res : ℚ) (maxIter : ℕ) :
    ∀ (fuel : ℕ) (s : TpState),
      (tpLoop P res maxIter fuel s).high - (tpLoop P res maxIter fuel s).low =
        (s.high - s.low) / 2 ^ ((tpLoop P res maxIter fuel s).iters - s.iters) := by
  intro fuel
  induction fuel with
  | zero => intro s; simp [tpLoop]
  | succ f ih =>
    intro s
    simp only [tpLoop]
    split_ifs with h
    · have hmono := tpLoop_iters_mono P res maxIter f (tpStep P s)
      rw [tpStep_iters] at hmono
      have hrec := ih (tpStep P s)
      rw [tpStep_width, tpStep_iters] at hrec
      rw [hrec, div_div]
      have hk : (tpLoop P res maxIter f (tpStep P s)).iters - (s.iters + 1) + 1 =
          (tpLoop P res maxIter f (tpStep P s)).iters - s.iters := by omega
      rw [show (2 : ℚ) * 2 ^ ((tpLoop P res maxIter f (tpStep P s)).iters - (s.iters + 1)) =
        2 ^ ((tpLoop P res maxIter f (tpStep P s)).iters - (s.iters + 1) + 1) by ring, hk]
    · simp

theorem tpLoop_exit (P : ℚ → Bool) (res : ℚ) (maxIter : ℕ) :
    ∀ (fuel : ℕ) (s : TpState), maxIter ≤ fuel + s.iters →
      ¬(res < (tpLoop P res maxIter fuel s).high - (tpLoop P res maxIter fuel s).low ∧
        (tpLoop P res maxIter fuel s).iters < maxIter) := by
  intro fuel
  induction fuel with
  | zero =>
    intro s hs
    simp only [tpLoop]
    omega
  | succ f ih =>
    intro s hs
    simp only [tpLoop]
    split_ifs with h
    · exact ih (tpStep P s) (by rw [tpStep_iters]; omega)
    · exact h

theorem tpLoop_last_width (P : ℚ → Bool) (res : ℚ) (maxIter : ℕ) :
    ∀ (fuel : ℕ) (s : TpState), s.iters < (tpLoop P res maxIter fuel s).iters →
      res < (s.high - s.low) / 2 ^ ((tpLoop P res maxIter fuel s).iters - 1 - s.iters) := by
  intro fuel
  induction fuel with
  | zero =>
    intro s hs
    simp only [tpLoop] at hs
    omega
  | succ f ih =>
    intro s hs
    simp only [tpLoop] at hs ⊢
    split_ifs with h
    · rw [if_pos h] at hs
      have hmono := tpLoop_iters_mono P res maxIter f (tpStep P s)
      rw [tpStep_iters] at hmono
      by_cases h2 : (tpStep P s).iters < (tpLoop P res maxIter f (tpStep P s)).iters
      · have hrec := ih (tpStep P s) h2
        rw [tpStep_width, tpStep_iters] at hrec
        rw [tpStep_iters] at h2
        have hk : (tpLoop P res maxIter f (tpStep P s)).iters - 1 - (s.iters + 1) + 1 =
            (tpLoop P res maxIter f (tpStep P s)).iters - 1 - s.iters := by omega
        calc res < (s.high - s.low) / 2 /
              2 ^ ((tpLoop P res maxIter f (tpStep P s)).iters - 1 - (s.iters + 1)) := hrec
          _ = (s.high - s.low) /
              2 ^ ((tpLoop P res maxIter f (tpStep P s)).iters - 1 - s.iters) := by
            rw [div_div, show (2 : ℚ) *
              2 ^ ((tpLoop P res maxIter f (tpStep P s)).iters - 1 - (s.iters + 1)) =
              2 ^ ((tpLoop P res maxIter f (tpStep P s)).iters - 1 - (s.iters + 1) + 1) by
                ring, hk]
      · have heq : (tpLoop P res maxIter f (tpStep P s)).iters = s.iters + 1 := by
          rw [tpStep_iters] at h2
          omega
        rw [heq]
        simpa using h.1
    · rw [if_neg h] at hs
      omega

theorem tpLoop_oracle_inv (P : ℚ → Bool) (res θ : ℚ) (maxIter : ℕ)
    (hP : ∀ r, P r = decide (r ≤ θ)) :
    ∀ (fuel : ℕ) (s : TpState), s.low ≤ θ → θ ≤ s.high → s.best = s.low →
      (tpLoop P res maxIter fuel s).low ≤ θ ∧
      θ ≤ (tpLoop P res maxIter fuel s).high ∧
      (tpLoop P res maxIter fuel s).best = (tpLoop P res maxIter fuel s).low := by
  intro fuel
  induction fuel with
  | zero =>
    intro s h1 h2 h3
    exact ⟨h1, h2, h3⟩
  | succ f ih =>
    intro s h1 h2 h3
    simp only [tpLoop]
    split_ifs with h
    · apply ih
      · simp only [tpStep]
        rw [hP]
        by_cases hm : (s.low + s.high) / 2 ≤ θ
        · rw [if_pos (by simpa using hm)]
          exact hm
        · rw [if_neg (by simpa using hm)]
          exact h1
      · simp only [tpStep]
        rw [hP]
        by_cases hm : (s.low + s.high) / 2 ≤ θ
        · rw [if_pos (by simpa using hm)]
          exact h2
        · rw [if_neg (by simpa using hm)]
          simpa using le_of_not_le hm
      · simp only [tpStep]
        split_ifs <;> simp [h3]
    · exact ⟨h1, h2, h3⟩

theorem tpLoop_allfail_best (Q : ℚ → Bool) (res : ℚ) (maxIter : ℕ)
    (hQ : ∀ r, Q r = false) :
    ∀ (fuel : ℕ) (s : TpState), (tpLoop Q res maxIter fuel s).best = s.best := by
  intro fuel
  induction fuel with
  | zero => intro s; rfl
  | succ f ih =>
    intro s
    simp only [tpLoop]
    split_ifs with h
    · rw [ih (tpStep Q s)]
      simp only [tpStep]
      rw [hQ]
      rfl
    · rfl

/-- C1: against an oracle passing exactly the rates `≤ θ` with
`θ ∈ [0, 100]`, the binary-search driver started on `[0, 100]` with
resolution `res` and an iteration cap of at least `ceil(log2(100/res))`
stops within both the cap and `ceil(log2(100/res))` iterations, exits with
`high − low ≤ res`, returns `best` equal to the final `low` with
`best ∈ [θ − res, θ]`, and returns `best = 0` whenever no trial ever
passed. -/
theorem rfc2544_throughput_search_converges (res θ : ℚ) (maxIter : ℕ) (P : ℚ → Bool)
    (hres : 0 < res) (hθ0 : 0 ≤ θ) (hθ1 : θ ≤ 100)
    (hP : ∀ r, P r = decide (r ≤ θ))
    (hiter : Nat.clog 2 ⌈(100 : ℚ) / res⌉₊ ≤ maxIter) :
    (rfc2544_throughput_search P res maxIter 100).iters ≤ maxIter ∧
    (rfc2544_throughput_search P res maxIter 100).iters ≤
      Nat.clog 2 ⌈(100 : ℚ) / res⌉₊ ∧
    (rfc2544_throughput_search P res maxIter 100).high -
      (rfc2544_throughput_search P res maxIter 100).low ≤ res ∧
    (rfc2544_throughput_search P res maxIter 100).best =
      (rfc2544_throughput_search P res maxIter 100).low ∧
    θ - res ≤ (rfc2544_throughput_search P res maxIter 100).best ∧
    (rfc2544_throughput_search P res maxIter 100).best ≤ θ ∧
    (∀ Q : ℚ → Bool, (∀ r, Q r = false) →
      (rfc2544_throughput_search Q res maxIter 100).best = 0) := by
  have hs0low : (⟨0, 100, 0, 0⟩ : TpState).low = 0 := rfl
  unfold rfc2544_throughput_search
  set B := Nat.clog 2 ⌈(100 : ℚ) / res⌉₊ with hB
  set t := tpLoop P res maxIter maxIter ⟨0, 100, 0, 0⟩ with ht
  have hitersle : t.iters ≤ maxIter :=
    tpLoop_iters_le P res maxIter maxIter ⟨0, 100, 0, 0⟩ (Nat.zero_le _)
  have hwid : t.high - t.low = 100 / 2 ^ t.iters := by
    have hw := tpLoop_width P res maxIter maxIter ⟨0, 100, 0, 0⟩
    rw [← ht] at hw
    simpa using hw
  have hinv := tpLoop_oracle_inv P res θ maxIter hP maxIter ⟨0, 100, 0, 0⟩
    (by simpa using hθ0) (by simpa using hθ1) rfl
  rw [← ht] at hinv
  have hceil : ((100 : ℚ) / res) ≤ (⌈(100 : ℚ) / res⌉₊ : ℚ) := Nat.le_ceil _
  have hpowB : ⌈(100 : ℚ) / res⌉₊ ≤ 2 ^ B := Nat.le_pow_clog one_lt_two _
  have hpowBQ : ((100 : ℚ) / res) ≤ (2 : ℚ) ^ B := by
    calc ((100 : ℚ) / res) ≤ (⌈(100 : ℚ) / res⌉₊ : ℚ) := hceil
      _ ≤ (2 : ℚ) ^ B := by exact_mod_cast hpowB
  have hiterB : t.iters ≤ B := by
    rcases Nat.eq_zero_or_pos t.iters with h | h
    · omega
    · have hlast := tpLoop_last_width P res maxIter maxIter ⟨0, 100, 0, 0⟩
        (by rw [← ht]; simpa using h)
      rw [← ht] at hlast
      simp only [Nat.sub_zero] at hlast
      have hlast2 : res < 100 / 2 ^ (t.iters - 1) := by simpa using hlast
      have hp2 : (0 : ℚ) < 2 ^ (t.iters - 1) := by positivity
      have h1 : (2 : ℚ) ^ (t.iters - 1) < 100 / res := by
        rw [lt_div_iff₀ hres]
        have := (lt_div_iff₀ hp2).mp hlast2
        linarith
      have h2 : (2 : ℕ) ^ (t.iters - 1) < ⌈(100 : ℚ) / res⌉₊ := by
        by_contra hcon
        push_neg at hcon
        have hcast : ((⌈(100 : ℚ) / res⌉₊ : ℕ) : ℚ) ≤ ((2 : ℕ) ^ (t.iters - 1) : ℚ) := by
          exact_mod_cast hcon
        push_cast at hcast
        linarith
      have h3 : ¬ (⌈(100 : ℚ) / res⌉₊ ≤ 2 ^ (t.iters - 1)) := by omega
      have h4 : ¬ (B ≤ t.iters - 1) := fun hc =>
        h3 ((Nat.le_pow_iff_clog_le one_lt_two).mpr hc)
      omega
  have hwle : t.high - t.low ≤ res := by
    by_contra hcon
    push_neg at hcon
    have hexit := tpLoop_exit P res maxIter maxIter ⟨0, 100, 0, 0⟩ (by simp)
    rw [← ht] at hexit
    have hge : maxIter ≤ t.iters := by
      by_contra hlt
      exact hexit ⟨hcon, by omega⟩
    have hBi : B ≤ t.iters := le_trans hiter hge
    have hp2B : (0 : ℚ) < 2 ^ B := by positivity
    have hp2i : (0 : ℚ) < 2 ^ t.iters := by positivity
    have hmono : (2 : ℚ) ^ B ≤ 2 ^ t.iters := by
      exact_mod_cast Nat.pow_le_pow_right (by norm_num) hBi
    have hw1 : (100 : ℚ) / 2 ^ t.iters ≤ 100 / 2 ^ B := by
      rw [div_le_div_iff₀ hp2i hp2B]
      nlinarith
    have hw2 : (100 : ℚ) / 2 ^ B ≤ res := by
      rw [div_le_iff₀ hp2B]
      have := (div_le_iff₀ hres).mp hpowBQ
      linarith
    rw [hwid] at hcon
    linarith
  refine ⟨hitersle, hiterB, hwle, hinv.2.2, ?_, ?_, ?_⟩
  · have : θ ≤ t.low + res := by linarith [hinv.2.1, hwle]
    linarith [hinv.2.2 ▸ this]
  · rw [hinv.2.2]
    exact hinv.1
  · intro Q hQ
    rw [tpLoop_allfail_best Q res maxIter hQ]

/-- Witness for `rfc2544_throughput_search_converges`: threshold 37 %,
resolution 0.1 %, 20 iterations — the defaults of the source. -/
theorem rfc2544_throughput_search_converges_witness :
    (0 : ℚ) < 1 / 10 ∧ (0 : ℚ) ≤ 37 ∧ (37 : ℚ) ≤ 100 ∧
    Nat.clog 2 ⌈(100 : ℚ) / (1 / 10)⌉₊ ≤ 20 ∧
    (37 : ℚ) - 1 / 10 ≤
      (rfc2544_throughput_search (fun r => decide (r ≤ 37)) (1 / 10) 20 100).best ∧
    (rfc2544_throughput_search (fun r => decide (r ≤ 37)) (1 / 10) 20 100).best ≤ 37 := by
  have hclog : Nat.clog 2 ⌈(100 : ℚ) / (1 / 10)⌉₊ ≤ 20 := by
    have hc : ⌈(100 : ℚ) / (1 / 10)⌉₊ = 1000 := by
      rw [show (100 : ℚ) / (1 / 10) = 1000 by norm_num]
      simp
    rw [hc, ← Nat.le_pow_iff_clog_le one_lt_two]
    norm_num
  have h := rfc2544_throughput_search_converges (1 / 10) 37 20
    (fun r => decide (r ≤ 37)) (by norm_num) (by norm_num) (by norm_num)
    (fun r => rfl) hclog
  exact ⟨by norm_num, by norm_num, by norm_num, hclog, h.2.2.2.2.1, h.2.2.2.2.2.1⟩
